import Mathlib

/-!
Shallow embedding of the 2048 grid engine from `src/lib.rs` (crate
`wasm-2048`).  Only the core engine (the part in scope of the spec) is
modelled: `Direction`, `Position`, `Tile`, `TileState`, `Grid` and the
operations `build_traversal`, `prepare_for_move`, `traverse_from`,
`move_in`, `add_random_tile`, `tiles`, together with the hand-written
`PartialEq` instances.

Modelling conventions:
  * Rust `usize` arithmetic is modelled on `Nat`; the cast
    `(x as i32 + d) as usize` in `impl Add<Direction> for Position`
    (which wraps for negative values on the wasm32 target) is modelled
    by `Int` arithmetic followed by reduction modulo 2^32.
  * The `[Cell; 16]` array is modelled as a `List Cell`; all theorems
    that depend on the fixed size carry the hypothesis
    `g.cells.length = 16`.  Rust's panicking index-assignment
    `cells[i] = v` is modelled by `List.set` (which leaves the list
    unchanged out of range); the safety claim C9 shows separately that
    every written index is in range.
  * The grid's owned random generator (`ThreadRng`) is modelled by two
    oracle arguments that are threaded into `move_in` /
    `add_random_tile`: `choice : Nat`, an index into the list of empty
    cells (`IteratorRandom::choose` picks uniformly among them), and
    `draw : Rat`, the value of `rng.gen::<f64>()` in [0,1).
  * The unbounded `loop` in `traverse_from` is modelled with fuel (16
    is far more than the at most 3 steps a walk can take); lemmas are
    proved for every fuel value.
  * Rust `i32` division (`tile.number / 2` in `tiles`) truncates
    toward zero, which is `Int.tdiv`.
-/

inductive Direction where
  | Left
  | Right
  | Up
  | Down
deriving DecidableEq, Repr

namespace Direction

/-- `Direction::as_pair`: the unit (row-delta, column-delta) vector. -/
def as_pair : Direction → Int × Int
  | .Left => (0, -1)
  | .Right => (0, 1)
  | .Up => (-1, 0)
  | .Down => (1, 0)

end Direction

structure Position where
  i : Nat
  j : Nat
deriving DecidableEq, Repr

namespace Position

/-- `Position::new`. -/
def new (i j : Nat) : Position := ⟨i, j⟩

/-- `Position::from_index`. -/
def from_index (index : Nat) : Position := ⟨index / 4, index % 4⟩

/-- `Position::index`. -/
def index (p : Position) : Nat := p.i * 4 + p.j

/-- `Position::is_out_of_bounds`. -/
def is_out_of_bounds (p : Position) : Bool :=
  decide (4 ≤ p.i) || decide (4 ≤ p.j)

/-- Models the Rust cast `(x : i32) as usize` on the wasm32 target
(32-bit `usize`, two's-complement wrap). -/
def usizeWrap (x : Int) : Nat := (x % 4294967296).toNat

/-- `impl Add<Direction> for Position`:
`Position { i: (self.i as i32 + i) as usize, j: (self.j as i32 + j) as usize }`. -/
def add_direction (p : Position) (d : Direction) : Position :=
  ⟨usizeWrap ((p.i : Int) + d.as_pair.1), usizeWrap ((p.j : Int) + d.as_pair.2)⟩

end Position

namespace Direction

/-- `Direction::build_traversal`. -/
def build_traversal (d : Direction) : List Position :=
  let i_traversal : List Nat :=
    match d with
    | .Down => (List.range 4).reverse
    | _ => List.range 4
  let j_traversal : List Nat :=
    match d with
    | .Right => (List.range 4).reverse
    | _ => List.range 4
  i_traversal.flatMap (fun i => j_traversal.map (fun j => Position.new i j))

end Direction

inductive TileState where
  | New
  | Static
  | Merged
deriving DecidableEq, Repr

structure Tile where
  number : Int
  state : TileState
  previous_position : Option Position
deriving DecidableEq, Repr

namespace Tile

/-- `Tile::new`. -/
def new (number : Int) : Tile :=
  { number := number, state := TileState.New, previous_position := none }

end Tile

/-- `impl PartialEq for Tile`: equality by `number` only. -/
def tileEq (a b : Tile) : Bool := a.number == b.number

abbrev Cell := Option Tile

/-- `PartialEq` on `Option<Tile>` as derived by Rust: both `None`, or
both `Some` with `tileEq` contents. -/
def cellEq (a b : Cell) : Bool :=
  match a, b with
  | none, none => true
  | some x, some y => tileEq x y
  | _, _ => false

/-- Element-wise equality of the two cell arrays (Rust `[Cell; 16]`
`PartialEq`). -/
def cellsEqList : List Cell → List Cell → Bool
  | [], [] => true
  | a :: as_, b :: bs => cellEq a b && cellsEqList as_ bs
  | _, _ => false

structure Grid where
  cells : List Cell
  enable_new_tiles : Bool
deriving DecidableEq, Repr

/-- `impl PartialEq for Grid`: compares only `cells`. -/
def gridEq (g1 g2 : Grid) : Bool := cellsEqList g1.cells g2.cells

namespace Grid

/-- `Grid::new`. -/
def new (cells : List Cell) : Grid :=
  { cells := cells, enable_new_tiles := true }

/-- `Grid::get`: `self.cells.get(position.index()).and_then(|tile| *tile)`. -/
def get (g : Grid) (p : Position) : Option Tile :=
  (g.cells.get? p.index).join

end Grid

/-- The loop body of `Grid::prepare_for_move`: reset every tile's state
to `Static` and record `previous_position` as its current cell; `n` is
the index of the first cell of the list. -/
def prepareCells : List Cell → Nat → List Cell
  | [], _ => []
  | c :: cs, n =>
      (c.map fun t =>
        { t with state := TileState.Static,
                 previous_position := some (Position.from_index n) })
        :: prepareCells cs (n + 1)

/-- The indices of the empty cells, in increasing order (the filter in
`Grid::add_random_tile`); `n` is the index of the first cell. -/
def emptyIndicesAux : List Cell → Nat → List Nat
  | [], _ => []
  | none :: cs, n => n :: emptyIndicesAux cs (n + 1)
  | some _ :: cs, n => emptyIndicesAux cs (n + 1)

namespace Grid

/-- `Grid::prepare_for_move`. -/
def prepare_for_move (g : Grid) : Grid :=
  { g with cells := prepareCells g.cells 0 }

/-- The `loop` of `Grid::traverse_from`: starting from candidate cell
`cur` with moving tile `t`, walk in direction `d`, returning the final
candidate position together with the (possibly merged) moving tile. -/
def walk (g : Grid) (t : Tile) (cur : Position) (d : Direction) : Nat → Position × Tile
  | 0 => (cur, t)
  | fuel + 1 =>
    if (cur.add_direction d).is_out_of_bounds then (cur, t)
    else
      match g.get (cur.add_direction d) with
      | some tile =>
          if tile.number = t.number ∧ ¬ tile.state = TileState.Merged
          then (cur.add_direction d,
                { t with number := t.number * 2, state := TileState.Merged })
          else (cur, t)
      | none => g.walk t (cur.add_direction d) d fuel

/-- `Grid::traverse_from`.  Returns the updated grid together with the
`bool` the Rust function returns (did the starting tile move or merge). -/
def traverse_from (g : Grid) (start : Position) (d : Direction) : Grid × Bool :=
  match g.get start with
  | none => (g, false)
  | some t =>
      if start = (g.walk t start d 16).1 then (g, false)
      else ({ g with
                cells := (g.cells.set start.index none).set
                  ((g.walk t start d 16).1).index (some ((g.walk t start d 16).2)) },
            true)

/-- One step of the `for start_position in traversal` loop of
`Grid::move_in` (`moved |= self.traverse_from(...)`). -/
def slide_step (d : Direction) (acc : Grid × Bool) (p : Position) : Grid × Bool :=
  let r := acc.1.traverse_from p d
  (r.1, acc.2 || r.2)

/-- The deterministic part of `Grid::move_in`: `prepare_for_move`
followed by the traversal loop, returning the grid and the `moved` flag. -/
def slide_phase (g : Grid) (d : Direction) : Grid × Bool :=
  (d.build_traversal).foldl (slide_step d) (g.prepare_for_move, false)

/-- `Grid::add_random_tile`.  `choice` models the uniform pick of
`IteratorRandom::choose` (an oracle index into the list of empty
cells), `draw` models `rng.gen::<f64>()`. -/
def add_random_tile (g : Grid) (choice : Nat) (draw : Rat) : Grid :=
  if g.enable_new_tiles = false then g
  else
    let empties := emptyIndicesAux g.cells 0
    match empties with
    | [] => g
    | _ :: _ =>
        let idx := empties.getD (choice % empties.length) 0
        let number : Int := if (9 : Rat) / 10 < draw then 4 else 2
        { g with cells := g.cells.set idx (some (Tile.new number)) }

/-- `Grid::move_in`. -/
def move_in (g : Grid) (d : Direction) (choice : Nat) (draw : Rat) : Grid :=
  if (g.slide_phase d).2 then (g.slide_phase d).1.add_random_tile choice draw
  else (g.slide_phase d).1

end Grid

/-- The one-or-two render entries a single occupied cell contributes to
`Grid::tiles` (the `flat_map` body). -/
def tileEntries (p : Position) (t : Tile) : List (Position × Tile) :=
  match t.state with
  | TileState.Merged =>
      [(p, t),
       (p, { state := TileState.Static,
             previous_position := t.previous_position,
             number := Int.tdiv t.number 2 })]
  | _ => [(p, t)]

/-- The iterator chain of `Grid::tiles` (enumerate, keep occupied
cells, flat-map into render entries); `n` is the index of the first
cell of the list. -/
def tilesAux : List Cell → Nat → List (Position × Tile)
  | [], _ => []
  | c :: cs, n =>
      (match c with
       | none => []
       | some t => tileEntries (Position.from_index n) t) ++ tilesAux cs (n + 1)

namespace Grid

/-- `Grid::tiles`, as the list of (position, tile) render entries. -/
def tiles (g : Grid) : List (Position × Tile) := tilesAux g.cells 0

end Grid

/-- The number held by a cell (0 for an empty cell); used to state the
total-sum invariant. -/
def cellNumber (c : Cell) : Int :=
  match c with
  | none => 0
  | some t => t.number

/-- Sum of all tile numbers on the board. -/
def sumNumbers (cells : List Cell) : Int := (cells.map cellNumber).sum

/-- Number of occupied cells. -/
def occupiedCount (cells : List Cell) : Nat := cells.countP (fun c => c.isSome)

/-- The number view of a cell: occupancy plus tile number, the data
Rust's `PartialEq` on `Grid` actually compares. -/
def cellNumberView (c : Cell) : Option Int := c.map (fun t => t.number)

/-- Occupancy bit of a cell, used for counting lemmas. -/
def cellBit (c : Cell) : Nat := if c.isSome then 1 else 0

/-- `make_grid` from the crate's test module: positive numbers become
fresh tiles, everything else is empty. -/
def gridOfNumbers (ns : List Int) : Grid :=
  Grid.new (ns.map (fun n => if 0 < n then some (Tile.new n) else none))

/-- A test grid with spawning disabled (`Grid::disable_new_tiles`),
exactly as the crate's unit tests prepare their fixtures. -/
def gridOfNumbersNoSpawn (ns : List Int) : Grid :=
  { gridOfNumbers ns with enable_new_tiles := false }

/-- Concrete grid for exercising a merge walk: a single `2` waiting at
column 1 of row 0. -/
def blockGrid : Grid :=
  gridOfNumbersNoSpawn [0, 2, 0, 0, 0, 0, 0, 0, 0, 0, 0, 0, 0, 0, 0, 0]

/-- Concrete grid `[2,2,0,0 / empty rows]` with spawning enabled. -/
def pairGrid : Grid :=
  gridOfNumbers [2, 2, 0, 0, 0, 0, 0, 0, 0, 0, 0, 0, 0, 0, 0, 0]

/-- Concrete grid `[2,2,0,0 / empty rows]` with spawning disabled (the
deterministic fixture used for the double-move scenario). -/
def pairGridNoSpawn : Grid :=
  gridOfNumbersNoSpawn [2, 2, 0, 0, 0, 0, 0, 0, 0, 0, 0, 0, 0, 0, 0, 0]

/-- Concrete grid with `[0,2,0,0]` in each of rows 1 and 2 (test case 3
of the crate). -/
def twoRowGrid : Grid :=
  gridOfNumbersNoSpawn [0, 0, 0, 0, 0, 2, 0, 0, 0, 2, 0, 0, 0, 0, 0, 0]

/-- Expected result of sliding `twoRowGrid` Left (test case 3 of the
crate). -/
def twoRowGridExpected : Grid :=
  gridOfNumbersNoSpawn [0, 0, 0, 0, 2, 0, 0, 0, 2, 0, 0, 0, 0, 0, 0, 0]

/-- Row iteration order as the spec words it: rows `0,1,2,3`, reversed
to `3,2,1,0` exactly when the direction is Down. -/
def spec_row_order (d : Direction) : List Nat :=
  match d with
  | .Down => [3, 2, 1, 0]
  | _ => [0, 1, 2, 3]

/-- Column iteration order as the spec words it: columns `0,1,2,3`,
reversed to `3,2,1,0` exactly when the direction is Right. -/
def spec_col_order (d : Direction) : List Nat :=
  match d with
  | .Right => [3, 2, 1, 0]
  | _ => [0, 1, 2, 3]

/-- A grid holding a merged tile at index 3 and a fresh tile at index
0, for exercising the render projection. -/
def mergedGrid : Grid :=
  Grid.new
    ((some (Tile.new 2)) :: none :: none ::
      (some { number := 4, state := TileState.Merged,
              previous_position := some (Position.new 0 0) }) ::
      List.replicate 12 none)

namespace Position

theorem is_out_of_bounds_eq_false_iff (p : Position) :
    p.is_out_of_bounds = false ↔ p.i < 4 ∧ p.j < 4 := by
  simp only [is_out_of_bounds, Bool.or_eq_false_iff, decide_eq_false_iff_not]
  omega

theorem index_lt_of_in_bounds (p : Position) (h : p.is_out_of_bounds = false) :
    p.index < 16 := by
  rw [is_out_of_bounds_eq_false_iff] at h
  unfold index
  omega

theorem index_from_index (n : Nat) : (from_index n).index = n := by
  simp only [from_index, index]
  omega

theorem from_index_index (p : Position) (h : p.is_out_of_bounds = false) :
    from_index p.index = p := by
  rw [is_out_of_bounds_eq_false_iff] at h
  cases p with
  | mk i j =>
    simp only [from_index, index, mk.injEq] at h ⊢
    constructor <;> omega

theorem index_inj (p q : Position) (hp : p.is_out_of_bounds = false)
    (hq : q.is_out_of_bounds = false) (h : p.index = q.index) : p = q := by
  rw [← from_index_index p hp, ← from_index_index q hq, h]

theorem from_index_inj {n m : Nat} (h : from_index n = from_index m) : n = m := by
  have h2 := congrArg index h
  rwa [index_from_index, index_from_index] at h2

end Position

theorem traversal_in_bounds (d : Direction) :
    ∀ p ∈ d.build_traversal, p.is_out_of_bounds = false := by
  cases d <;> decide

theorem list_get?_eq_getD {α : Type} :
    ∀ (l : List α) (i : Nat) (dflt : α), i < l.length → l.get? i = some (l.getD i dflt)
  | _ :: _, 0, _, _ => rfl
  | _ :: l, i + 1, dflt, h => list_get?_eq_getD l i dflt (by simpa using h)

theorem list_getD_set_self {α : Type} :
    ∀ (l : List α) (i : Nat) (v dflt : α), i < l.length → (l.set i v).getD i dflt = v
  | _ :: _, 0, _, _, _ => rfl
  | _ :: l, i + 1, v, dflt, h => list_getD_set_self l i v dflt (by simpa using h)

theorem list_getD_set_ne {α : Type} :
    ∀ (l : List α) (i j : Nat) (v dflt : α), i ≠ j → (l.set i v).getD j dflt = l.getD j dflt
  | [], _, _, _, _, _ => rfl
  | _ :: _, 0, 0, _, _, hne => absurd rfl hne
  | _ :: _, 0, _ + 1, _, _, _ => rfl
  | _ :: _, _ + 1, 0, _, _, _ => rfl
  | _ :: l, i + 1, j + 1, v, dflt, hne =>
      list_getD_set_ne l i j v dflt (fun h => hne (by omega))

theorem sumNumbers_set :
    ∀ (l : List Cell) (i : Nat) (v : Cell), i < l.length →
      sumNumbers (l.set i v) + cellNumber (l.getD i none) = sumNumbers l + cellNumber v
  | c :: l, 0, v, _ => by
      simp only [List.set, List.getD_cons_zero, sumNumbers, List.map, List.sum_cons]
      omega
  | c :: l, i + 1, v, h => by
      have ih := sumNumbers_set l i v (by simpa using h)
      simp only [List.set, List.getD_cons_succ, sumNumbers, List.map, List.sum_cons] at ih ⊢
      omega

theorem occupiedCount_set :
    ∀ (l : List Cell) (i : Nat) (v : Cell), i < l.length →
      occupiedCount (l.set i v) + cellBit (l.getD i none) = occupiedCount l + cellBit v
  | c :: l, 0, v, _ => by
      simp only [List.set, occupiedCount, List.countP_cons, cellBit, List.getD_cons_zero]
      omega
  | c :: l, i + 1, v, h => by
      have ih := occupiedCount_set l i v (by simpa using h)
      simp only [List.set, List.getD_cons_succ, occupiedCount, List.countP_cons] at ih ⊢
      omega

theorem occupiedCount_lt_of_none :
    ∀ (l : List Cell) (i : Nat), i < l.length → l.getD i none = none →
      occupiedCount l < l.length
  | c :: l, 0, _, hn => by
      simp only [List.getD_cons_zero] at hn
      subst hn
      have := List.countP_le_length (l := l) (p := fun c : Cell => c.isSome)
      simp only [occupiedCount, List.countP_cons, List.length_cons, Option.isSome_none]
      simpa using Nat.lt_succ_of_le this
  | c :: l, i + 1, h, hn => by
      have ih := occupiedCount_lt_of_none l i (by simpa using h) (by simpa using hn)
      simp only [occupiedCount, List.countP_cons, List.length_cons] at ih ⊢
      split <;> omega

theorem cellEq_iff_view (a b : Cell) :
    cellEq a b = true ↔ cellNumberView a = cellNumberView b := by
  cases a <;> cases b <;>
    simp [cellEq, cellNumberView, tileEq, beq_iff_eq]

theorem cellsEqList_iff_view :
    ∀ (l1 l2 : List Cell),
      cellsEqList l1 l2 = true ↔ l1.map cellNumberView = l2.map cellNumberView
  | [], [] => by simp [cellsEqList]
  | [], _ :: _ => by simp [cellsEqList]
  | _ :: _, [] => by simp [cellsEqList]
  | a :: l1, b :: l2 => by
      simp only [cellsEqList, Bool.and_eq_true, List.map, List.cons.injEq]
      rw [cellEq_iff_view, cellsEqList_iff_view l1 l2]

theorem cellNumber_eq_of_view {a b : Cell} (h : cellNumberView a = cellNumberView b) :
    cellNumber a = cellNumber b := by
  cases a <;> cases b <;> simp_all [cellNumberView, cellNumber]

theorem cellsEqList_sum {l1 l2 : List Cell} (h : cellsEqList l1 l2 = true) :
    sumNumbers l1 = sumNumbers l2 := by
  rw [cellsEqList_iff_view] at h
  induction l1 generalizing l2 with
  | nil => cases l2 with
    | nil => rfl
    | cons b l2 => simp at h
  | cons a l1 ih =>
    cases l2 with
    | nil => simp at h
    | cons b l2 =>
      simp only [List.map, List.cons.injEq] at h
      have h1 := cellNumber_eq_of_view h.1
      have h2 := ih h.2
      simp only [sumNumbers, List.map, List.sum_cons] at h2 ⊢
      omega

theorem prepareCells_length : ∀ (cs : List Cell) (n : Nat),
    (prepareCells cs n).length = cs.length
  | [], _ => rfl
  | c :: cs, n => by
      simp only [prepareCells, List.length_cons, prepareCells_length cs (n + 1)]

theorem prepareCells_cellsEq : ∀ (cs : List Cell) (n : Nat),
    cellsEqList (prepareCells cs n) cs = true
  | [], _ => rfl
  | c :: cs, n => by
      simp only [prepareCells, cellsEqList, Bool.and_eq_true]
      refine ⟨?_, prepareCells_cellsEq cs (n + 1)⟩
      cases c <;> simp [cellEq, tileEq]

theorem prepareCells_sum : ∀ (cs : List Cell) (n : Nat),
    sumNumbers (prepareCells cs n) = sumNumbers cs
  | [], _ => rfl
  | c :: cs, n => by
      have ih := prepareCells_sum cs (n + 1)
      simp only [prepareCells, sumNumbers, List.map, List.sum_cons] at ih ⊢
      cases c <;> simp [cellNumber] <;> omega

theorem emptyIndicesAux_mem : ∀ (cs : List Cell) (n i : Nat),
    i ∈ emptyIndicesAux cs n → n ≤ i ∧ i - n < cs.length ∧ cs.getD (i - n) none = none
  | [], n, i, h => by simp [emptyIndicesAux] at h
  | none :: cs, n, i, h => by
      simp only [emptyIndicesAux, List.mem_cons] at h
      rcases h with rfl | h
      · simp
      · have ih := emptyIndicesAux_mem cs (n + 1) i h
        have h1 : i - n = (i - (n + 1)) + 1 := by omega
        rw [h1]
        simp only [List.getD_cons_succ, List.length_cons]
        exact ⟨by omega, by omega, ih.2.2⟩
  | some t :: cs, n, i, h => by
      have ih := emptyIndicesAux_mem cs (n + 1) i (by simpa [emptyIndicesAux] using h)
      have h1 : i - n = (i - (n + 1)) + 1 := by omega
      rw [h1]
      simp only [List.getD_cons_succ, List.length_cons]
      exact ⟨by omega, by omega, ih.2.2⟩

theorem emptyIndicesAux_length : ∀ (cs : List Cell) (n : Nat),
    cs.length = occupiedCount cs + (emptyIndicesAux cs n).length
  | [], _ => rfl
  | none :: cs, n => by
      have ih := emptyIndicesAux_length cs (n + 1)
      simp [emptyIndicesAux, occupiedCount, List.countP_cons] at ih ⊢
      omega
  | some t :: cs, n => by
      have ih := emptyIndicesAux_length cs (n + 1)
      simp [emptyIndicesAux, occupiedCount, List.countP_cons] at ih ⊢
      omega

namespace Position

theorem add_direction_i (p : Position) (d : Direction)
    (hd : d.as_pair.1 = 0) (h : p.i < 4) : (p.add_direction d).i = p.i := by
  simp only [add_direction, usizeWrap, hd, add_zero]
  omega

theorem add_direction_j (p : Position) (d : Direction)
    (hd : d.as_pair.2 = 0) (h : p.j < 4) : (p.add_direction d).j = p.j := by
  simp only [add_direction, usizeWrap, hd, add_zero]
  omega

end Position

namespace Grid

theorem get_eq_getD (g : Grid) (p : Position) (h : p.index < g.cells.length) :
    g.get p = g.cells.getD p.index none := by
  unfold get
  rw [list_get?_eq_getD g.cells p.index none h]
  rfl

theorem get_some_index_lt {g : Grid} {p : Position} {t : Tile}
    (h : g.get p = some t) : p.index < g.cells.length := by
  by_contra hge
  unfold get at h
  rw [List.get?_eq_none.mpr (by omega)] at h
  simp [Option.join] at h

theorem walk_cases (g : Grid) (t : Tile) (d : Direction) :
    ∀ (fuel : Nat) (cur : Position),
      g.walk t cur d fuel = (cur, t) ∨
      (((g.walk t cur d fuel).1.is_out_of_bounds = false) ∧
       (((g.walk t cur d fuel).2 = t ∧ g.get (g.walk t cur d fuel).1 = none) ∨
        (∃ b, g.get (g.walk t cur d fuel).1 = some b ∧ b.number = t.number ∧
              ¬ b.state = TileState.Merged ∧
              (g.walk t cur d fuel).2 =
                { t with number := t.number * 2, state := TileState.Merged })))
  | 0, cur => Or.inl rfl
  | fuel + 1, cur => by
      cases hb : (cur.add_direction d).is_out_of_bounds with
      | true =>
          left
          simp [walk, hb]
      | false =>
          cases hg : g.get (cur.add_direction d) with
          | some tile =>
              by_cases hc : tile.number = t.number ∧ ¬ tile.state = TileState.Merged
              · have hw : g.walk t cur d (fuel + 1) =
                    (cur.add_direction d,
                     { t with number := t.number * 2, state := TileState.Merged }) := by
                  simp [walk, hb, hg, hc]
                right
                rw [hw]
                exact ⟨hb, Or.inr ⟨tile, hg, hc.1, hc.2, rfl⟩⟩
              · left
                simp [walk, hb, hg, hc]
          | none =>
              have hw : g.walk t cur d (fuel + 1) = g.walk t (cur.add_direction d) d fuel := by
                simp [walk, hb, hg]
              rw [hw]
              rcases walk_cases g t d fuel (cur.add_direction d) with h | h
              · right
                rw [h]
                exact ⟨hb, Or.inl ⟨rfl, hg⟩⟩
              · right
                exact h

theorem walk_fixed_i (g : Grid) (t : Tile) (d : Direction) (hd : d.as_pair.1 = 0) :
    ∀ (fuel : Nat) (cur : Position), cur.i < 4 → ((g.walk t cur d fuel).1).i = cur.i
  | 0, _, _ => rfl
  | fuel + 1, cur, h => by
      cases hb : (cur.add_direction d).is_out_of_bounds with
      | true => simp [walk, hb]
      | false =>
          have hi : (cur.add_direction d).i = cur.i := Position.add_direction_i cur d hd h
          have hi4 : (cur.add_direction d).i < 4 := by rw [hi]; exact h
          cases hg : g.get (cur.add_direction d) with
          | some tile =>
              by_cases hc : tile.number = t.number ∧ ¬ tile.state = TileState.Merged
              · simp [walk, hb, hg, hc, hi]
              · simp [walk, hb, hg, hc]
          | none =>
              have hw : g.walk t cur d (fuel + 1) = g.walk t (cur.add_direction d) d fuel := by
                simp [walk, hb, hg]
              rw [hw, walk_fixed_i g t d hd fuel (cur.add_direction d) hi4, hi]

theorem walk_fixed_j (g : Grid) (t : Tile) (d : Direction) (hd : d.as_pair.2 = 0) :
    ∀ (fuel : Nat) (cur : Position), cur.j < 4 → ((g.walk t cur d fuel).1).j = cur.j
  | 0, _, _ => rfl
  | fuel + 1, cur, h => by
      cases hb : (cur.add_direction d).is_out_of_bounds with
      | true => simp [walk, hb]
      | false =>
          have hj : (cur.add_direction d).j = cur.j := Position.add_direction_j cur d hd h
          have hj4 : (cur.add_direction d).j < 4 := by rw [hj]; exact h
          cases hg : g.get (cur.add_direction d) with
          | some tile =>
              by_cases hc : tile.number = t.number ∧ ¬ tile.state = TileState.Merged
              · simp [walk, hb, hg, hc, hj]
              · simp [walk, hb, hg, hc]
          | none =>
              have hw : g.walk t cur d (fuel + 1) = g.walk t (cur.add_direction d) d fuel := by
                simp [walk, hb, hg]
              rw [hw, walk_fixed_j g t d hd fuel (cur.add_direction d) hj4, hj]

end Grid

namespace Grid

theorem traverse_from_empty (g : Grid) (p : Position) (d : Direction)
    (hg : g.get p = none) : g.traverse_from p d = (g, false) := by
  simp only [traverse_from, hg]

theorem traverse_from_stay (g : Grid) (p : Position) (d : Direction) (t : Tile)
    (hg : g.get p = some t) (hr : p = (g.walk t p d 16).1) :
    g.traverse_from p d = (g, false) := by
  simp only [traverse_from, hg]
  rw [if_pos hr]

theorem traverse_from_moved (g : Grid) (p : Position) (d : Direction) (t : Tile)
    (hg : g.get p = some t) (hr : ¬ p = (g.walk t p d 16).1) :
    g.traverse_from p d =
      ({ g with
           cells := (g.cells.set p.index none).set
             ((g.walk t p d 16).1).index (some ((g.walk t p d 16).2)) },
       true) := by
  simp only [traverse_from, hg]
  rw [if_neg hr]

theorem traverse_from_length (g : Grid) (p : Position) (d : Direction) :
    ((g.traverse_from p d).1).cells.length = g.cells.length := by
  cases hg : g.get p with
  | none => rw [traverse_from_empty g p d hg]
  | some t =>
      by_cases hr : p = (g.walk t p d 16).1
      · rw [traverse_from_stay g p d t hg hr]
      · rw [traverse_from_moved g p d t hg hr]
        simp [List.length_set]

theorem traverse_from_enable (g : Grid) (p : Position) (d : Direction) :
    ((g.traverse_from p d).1).enable_new_tiles = g.enable_new_tiles := by
  cases hg : g.get p with
  | none => rw [traverse_from_empty g p d hg]
  | some t =>
      by_cases hr : p = (g.walk t p d 16).1
      · rw [traverse_from_stay g p d t hg hr]
      · rw [traverse_from_moved g p d t hg hr]

theorem traverse_from_of_flag_false (g : Grid) (p : Position) (d : Direction)
    (h : (g.traverse_from p d).2 = false) : g.traverse_from p d = (g, false) := by
  cases hg : g.get p with
  | none => exact traverse_from_empty g p d hg
  | some t =>
      by_cases hr : p = (g.walk t p d 16).1
      · exact traverse_from_stay g p d t hg hr
      · rw [traverse_from_moved g p d t hg hr] at h
        simp at h

theorem traverse_from_sum (g : Grid) (p : Position) (d : Direction)
    (hp : p.is_out_of_bounds = false) (hlen : g.cells.length = 16) :
    sumNumbers ((g.traverse_from p d).1).cells = sumNumbers g.cells := by
  cases hg : g.get p with
  | none => rw [traverse_from_empty g p d hg]
  | some t =>
      by_cases hr : p = (g.walk t p d 16).1
      · rw [traverse_from_stay g p d t hg hr]
      · rcases walk_cases g t d 16 p with hw | ⟨hoob, hw⟩
        · exact absurd (congrArg Prod.fst hw).symm hr
        · rw [traverse_from_moved g p d t hg hr]
          show sumNumbers ((g.cells.set p.index none).set
            ((g.walk t p d 16).1).index (some ((g.walk t p d 16).2))) = sumNumbers g.cells
          have hpi : p.index < 16 := Position.index_lt_of_in_bounds p hp
          have hdi : ((g.walk t p d 16).1).index < 16 :=
            Position.index_lt_of_in_bounds _ hoob
          have hne : p.index ≠ ((g.walk t p d 16).1).index :=
            fun hEq => hr (Position.index_inj p _ hp hoob hEq)
          have hgp : g.cells.getD p.index none = some t := by
            rw [← get_eq_getD g p (by omega)]
            exact hg
          have s1 := sumNumbers_set g.cells p.index none (by omega)
          rw [hgp] at s1
          have s2 := sumNumbers_set (g.cells.set p.index none)
            ((g.walk t p d 16).1).index (some ((g.walk t p d 16).2))
            (by simp [List.length_set]; omega)
          rw [list_getD_set_ne g.cells p.index _ none none hne,
            ← get_eq_getD g _ (by omega)] at s2
          rcases hw with ⟨hteq, hnone⟩ | ⟨b, hb, hbn, _, htm⟩
          · rw [hnone] at s2
            rw [hteq] at s2 ⊢
            simp only [cellNumber] at s1 s2
            omega
          · rw [hb] at s2
            rw [htm] at s2 ⊢
            simp only [cellNumber] at s1 s2
            omega

theorem traverse_from_count (g : Grid) (p : Position) (d : Direction)
    (hp : p.is_out_of_bounds = false) (hlen : g.cells.length = 16) :
    occupiedCount ((g.traverse_from p d).1).cells ≤ occupiedCount g.cells ∧
      ((g.traverse_from p d).2 = true → occupiedCount ((g.traverse_from p d).1).cells < 16) := by
  cases hg : g.get p with
  | none =>
      rw [traverse_from_empty g p d hg]
      exact ⟨Nat.le_refl _, by intro h; simp at h⟩
  | some t =>
      by_cases hr : p = (g.walk t p d 16).1
      · rw [traverse_from_stay g p d t hg hr]
        exact ⟨Nat.le_refl _, by intro h; simp at h⟩
      · rcases walk_cases g t d 16 p with hw | ⟨hoob, hw⟩
        · exact absurd (congrArg Prod.fst hw).symm hr
        · rw [traverse_from_moved g p d t hg hr]
          have hpi : p.index < 16 := Position.index_lt_of_in_bounds p hp
          have hdi : ((g.walk t p d 16).1).index < 16 :=
            Position.index_lt_of_in_bounds _ hoob
          have hne : p.index ≠ ((g.walk t p d 16).1).index :=
            fun hEq => hr (Position.index_inj p _ hp hoob hEq)
          have hgp : g.cells.getD p.index none = some t := by
            rw [← get_eq_getD g p (by omega)]
            exact hg
          have s1 := occupiedCount_set g.cells p.index none (by omega)
          rw [hgp] at s1
          have s2 := occupiedCount_set (g.cells.set p.index none)
            ((g.walk t p d 16).1).index (some ((g.walk t p d 16).2))
            (by simp [List.length_set]; omega)
          rw [list_getD_set_ne g.cells p.index _ none none hne,
            ← get_eq_getD g _ (by omega)] at s2
          have hfinalnone :
              ((g.cells.set p.index none).set
                ((g.walk t p d 16).1).index (some ((g.walk t p d 16).2))).getD p.index none
                = none := by
            rw [list_getD_set_ne _ _ _ _ _ (fun h => hne h.symm),
              list_getD_set_self g.cells p.index none none (by omega)]
          have hflen :
              ((g.cells.set p.index none).set
                ((g.walk t p d 16).1).index (some ((g.walk t p d 16).2))).length = 16 := by
            simp [List.length_set]
            exact hlen
          have hlt := occupiedCount_lt_of_none _ p.index (by omega) hfinalnone
          rw [hflen] at hlt
          constructor
          · show occupiedCount ((g.cells.set p.index none).set
              ((g.walk t p d 16).1).index (some ((g.walk t p d 16).2))) ≤ occupiedCount g.cells
            rcases hw with ⟨_, hnone⟩ | ⟨b, hb, _, _, _⟩
            · rw [hnone] at s2
              simp [cellBit] at s1 s2
              omega
            · rw [hb] at s2
              simp [cellBit] at s1 s2
              omega
          · intro _
            exact hlt

end Grid

theorem list_getD_mem {α : Type} (l : List α) (k : Nat) (dflt : α) (h : k < l.length) :
    l.getD k dflt ∈ l :=
  List.get?_mem (list_get?_eq_getD l k dflt h)

namespace Grid

theorem fold_length (d : Direction) :
    ∀ (ps : List Position) (acc : Grid × Bool),
      ((ps.foldl (slide_step d) acc).1).cells.length = acc.1.cells.length
  | [], _ => rfl
  | p :: ps, acc => by
      rw [List.foldl_cons, fold_length d ps (slide_step d acc p)]
      exact traverse_from_length acc.1 p d

theorem fold_enable (d : Direction) :
    ∀ (ps : List Position) (acc : Grid × Bool),
      ((ps.foldl (slide_step d) acc).1).enable_new_tiles = acc.1.enable_new_tiles
  | [], _ => rfl
  | p :: ps, acc => by
      rw [List.foldl_cons, fold_enable d ps (slide_step d acc p)]
      exact traverse_from_enable acc.1 p d

theorem fold_sum (d : Direction) :
    ∀ (ps : List Position) (acc : Grid × Bool),
      (∀ p ∈ ps, p.is_out_of_bounds = false) → acc.1.cells.length = 16 →
      sumNumbers ((ps.foldl (slide_step d) acc).1).cells = sumNumbers acc.1.cells
  | [], _, _, _ => rfl
  | p :: ps, acc, hps, hlen => by
      have h1 : ((slide_step d acc p).1).cells.length = 16 := by
        show ((acc.1.traverse_from p d).1).cells.length = 16
        rw [traverse_from_length]
        exact hlen
      rw [List.foldl_cons,
        fold_sum d ps (slide_step d acc p) (fun q hq => hps q (List.mem_cons_of_mem p hq)) h1]
      exact traverse_from_sum acc.1 p d (hps p (List.mem_cons_self p ps)) hlen

theorem fold_count (d : Direction) :
    ∀ (ps : List Position) (acc : Grid × Bool),
      (∀ p ∈ ps, p.is_out_of_bounds = false) → acc.1.cells.length = 16 →
      occupiedCount ((ps.foldl (slide_step d) acc).1).cells ≤ occupiedCount acc.1.cells ∧
      ((ps.foldl (slide_step d) acc).2 = true →
        acc.2 = true ∨ occupiedCount ((ps.foldl (slide_step d) acc).1).cells < 16)
  | [], acc, _, _ => ⟨Nat.le_refl _, fun h => Or.inl h⟩
  | p :: ps, acc, hps, hlen => by
      have hp0 := hps p (List.mem_cons_self p ps)
      have h1 : ((slide_step d acc p).1).cells.length = 16 := by
        show ((acc.1.traverse_from p d).1).cells.length = 16
        rw [traverse_from_length]
        exact hlen
      have tc := traverse_from_count acc.1 p d hp0 hlen
      have ih := fold_count d ps (slide_step d acc p)
        (fun q hq => hps q (List.mem_cons_of_mem p hq)) h1
      rw [List.foldl_cons]
      constructor
      · exact Nat.le_trans ih.1 tc.1
      · intro hf
        rcases ih.2 hf with h2 | h2
        · have h3 : (acc.2 || (acc.1.traverse_from p d).2) = true := h2
          rcases Bool.or_eq_true_iff.mp h3 with h4 | h4
          · exact Or.inl h4
          · exact Or.inr (Nat.lt_of_le_of_lt ih.1 (tc.2 h4))
        · exact Or.inr h2

theorem fold_flag_false (d : Direction) :
    ∀ (ps : List Position) (acc : Grid × Bool),
      (ps.foldl (slide_step d) acc).2 = false →
      (ps.foldl (slide_step d) acc).1 = acc.1 ∧ acc.2 = false
  | [], acc, h => ⟨rfl, h⟩
  | p :: ps, acc, h => by
      rw [List.foldl_cons] at h ⊢
      have ih := fold_flag_false d ps (slide_step d acc p) h
      have h2 : (acc.2 || (acc.1.traverse_from p d).2) = false := ih.2
      rcases Bool.or_eq_false_iff.mp h2 with ⟨h3, h4⟩
      have h5 := traverse_from_of_flag_false acc.1 p d h4
      refine ⟨?_, h3⟩
      rw [ih.1]
      show (acc.1.traverse_from p d).1 = acc.1
      rw [h5]

theorem slide_phase_length (g : Grid) (d : Direction) :
    ((g.slide_phase d).1).cells.length = g.cells.length := by
  rw [slide_phase, fold_length]
  show (prepareCells g.cells 0).length = g.cells.length
  exact prepareCells_length g.cells 0

theorem slide_phase_enable (g : Grid) (d : Direction) :
    ((g.slide_phase d).1).enable_new_tiles = g.enable_new_tiles := by
  rw [slide_phase, fold_enable]
  rfl

theorem slide_phase_sum (g : Grid) (d : Direction) (hlen : g.cells.length = 16) :
    sumNumbers ((g.slide_phase d).1).cells = sumNumbers g.cells := by
  rw [slide_phase, fold_sum d (d.build_traversal) (g.prepare_for_move, false)
    (traversal_in_bounds d)
    (by show (prepareCells g.cells 0).length = 16; rw [prepareCells_length]; exact hlen)]
  show sumNumbers (prepareCells g.cells 0) = sumNumbers g.cells
  exact prepareCells_sum g.cells 0

theorem slide_phase_count (g : Grid) (d : Direction) (hlen : g.cells.length = 16)
    (h : (g.slide_phase d).2 = true) : occupiedCount ((g.slide_phase d).1).cells < 16 := by
  have hc := fold_count d (d.build_traversal) (g.prepare_for_move, false)
    (traversal_in_bounds d)
    (by show (prepareCells g.cells 0).length = 16; rw [prepareCells_length]; exact hlen)
  rw [slide_phase] at h
  rcases hc.2 h with h2 | h2
  · simp at h2
  · rw [slide_phase]
    exact h2

theorem slide_phase_flag_false (g : Grid) (d : Direction)
    (h : (g.slide_phase d).2 = false) : (g.slide_phase d).1 = g.prepare_for_move := by
  rw [slide_phase] at h ⊢
  exact (fold_flag_false d (d.build_traversal) (g.prepare_for_move, false) h).1

theorem add_random_tile_disabled (g : Grid) (choice : Nat) (draw : Rat)
    (h : g.enable_new_tiles = false) : g.add_random_tile choice draw = g := by
  simp [add_random_tile, h]

theorem add_random_tile_no_empty (g : Grid) (choice : Nat) (draw : Rat)
    (he : g.enable_new_tiles = true) (h : emptyIndicesAux g.cells 0 = []) :
    g.add_random_tile choice draw = g := by
  simp only [add_random_tile, he]
  rw [if_neg (by simp)]
  simp only [h]

theorem add_random_tile_spawns (g : Grid) (choice : Nat) (draw : Rat)
    (he : g.enable_new_tiles = true) (hne : emptyIndicesAux g.cells 0 ≠ []) :
    g.add_random_tile choice draw =
      { g with
          cells := g.cells.set
            ((emptyIndicesAux g.cells 0).getD (choice % (emptyIndicesAux g.cells 0).length) 0)
            (some (Tile.new (if (9 : Rat) / 10 < draw then 4 else 2))) } := by
  cases hE : emptyIndicesAux g.cells 0 with
  | nil => exact absurd hE hne
  | cons a l =>
      simp only [add_random_tile, he, hE]
      rw [if_neg (by simp)]

theorem move_in_eq_spawn (g : Grid) (d : Direction) (choice : Nat) (draw : Rat)
    (h : (g.slide_phase d).2 = true) :
    g.move_in d choice draw = (g.slide_phase d).1.add_random_tile choice draw := by
  simp [move_in, h]

theorem move_in_eq_stay (g : Grid) (d : Direction) (choice : Nat) (draw : Rat)
    (h : (g.slide_phase d).2 = false) :
    g.move_in d choice draw = (g.slide_phase d).1 := by
  simp [move_in, h]

end Grid

theorem tilesAux_length : ∀ (cs : List Cell) (n : Nat),
    (tilesAux cs n).length ≤ 2 * cs.length
  | [], _ => by simp [tilesAux]
  | c :: cs, n => by
      have ih := tilesAux_length cs (n + 1)
      have hc : (match c with
          | none => []
          | some t => tileEntries (Position.from_index n) t).length ≤ 2 := by
        cases c with
        | none => simp
        | some t => cases ht : t.state <;> simp [tileEntries, ht]
      simp only [tilesAux, List.length_append, List.length_cons]
      omega

theorem tilesAux_filter_lt : ∀ (cs : List Cell) (m i : Nat), i < m →
    (tilesAux cs m).filter (fun e => decide (e.1 = Position.from_index i)) = []
  | [], _, _, _ => rfl
  | c :: cs, m, i, h => by
      cases c with
      | none =>
          simp only [tilesAux, List.nil_append]
          exact tilesAux_filter_lt cs (m + 1) i (by omega)
      | some t =>
          have hne : ¬ (Position.from_index m = Position.from_index i) :=
            fun hEq => absurd (Position.from_index_inj hEq) (by omega)
          have htail := tilesAux_filter_lt cs (m + 1) i (by omega)
          cases ht : t.state <;>
            simp [tilesAux, tileEntries, ht, List.filter_append, List.filter, hne, htail]

theorem tilesAux_filter : ∀ (cs : List Cell) (n i : Nat), n ≤ i → i < n + cs.length →
    (tilesAux cs n).filter (fun e => decide (e.1 = Position.from_index i)) =
      (match cs.getD (i - n) none with
       | none => []
       | some t => tileEntries (Position.from_index i) t)
  | [], n, i, hle, hlt => by
      simp only [List.length_nil] at hlt
      omega
  | c :: cs, n, i, hle, hlt => by
      by_cases hni : i = n
      · cases c with
        | none =>
            simp only [tilesAux, List.nil_append]
            rw [tilesAux_filter_lt cs (n + 1) i (by omega)]
            simp [hni, Nat.sub_self]
        | some t =>
            simp only [tilesAux, List.filter_append]
            rw [tilesAux_filter_lt cs (n + 1) i (by omega), List.append_nil]
            have heq : Position.from_index n = Position.from_index i := by rw [hni]
            cases ht : t.state <;>
              simp [tileEntries, ht, List.filter, heq, hni, Nat.sub_self]
      · have hsub : i - n = (i - (n + 1)) + 1 := by omega
        cases c with
        | none =>
            simp only [tilesAux, List.nil_append]
            rw [tilesAux_filter cs (n + 1) i (by omega)
              (by simp only [List.length_cons] at hlt; omega)]
            rw [hsub]
            simp [List.getD_cons_succ]
        | some t =>
            have hne : ¬ (Position.from_index n = Position.from_index i) :=
              fun hEq => absurd (Position.from_index_inj hEq) (fun h => hni h.symm)
            simp only [tilesAux, List.filter_append]
            have hblock : (tileEntries (Position.from_index n) t).filter
                (fun e => decide (e.1 = Position.from_index i)) = [] := by
              cases ht : t.state <;> simp [tileEntries, ht, List.filter, hne]
            rw [hblock, List.nil_append,
              tilesAux_filter cs (n + 1) i (by omega)
                (by simp only [List.length_cons] at hlt; omega)]
            rw [hsub]
            simp [List.getD_cons_succ]

/-- C1: when the walk in `traverse_from` hits an occupied cell, a merge
happens if and only if the blocking tile's number equals the moving
tile's number and the blocking tile's state is not `Merged`; in that
case the moving tile's number doubles, its state becomes `Merged` and
its destination is the blocking cell; otherwise the destination is the
last candidate cell before the blocking cell.  In particular a tile in
state `Merged` (i.e. one produced by a merge this move) is never merged
into again. -/
theorem C1_merge_rule (g : Grid) (t : Tile) (cand : Position) (d : Direction)
    (fuel : Nat) (b : Tile)
    (h1 : (cand.add_direction d).is_out_of_bounds = false)
    (h2 : g.get (cand.add_direction d) = some b) :
    (g.walk t cand d (fuel + 1) =
      if b.number = t.number ∧ ¬ b.state = TileState.Merged
      then (cand.add_direction d,
            { t with number := t.number * 2, state := TileState.Merged })
      else (cand, t)) ∧
    (b.state = TileState.Merged → g.walk t cand d (fuel + 1) = (cand, t)) := by
  constructor
  · by_cases hc : b.number = t.number ∧ ¬ b.state = TileState.Merged
    · rw [if_pos hc]
      simp [Grid.walk, h1, h2, hc]
    · rw [if_neg hc]
      simp [Grid.walk, h1, h2, hc]
  · intro hm
    have hc : ¬ (b.number = t.number ∧ ¬ b.state = TileState.Merged) := by
      simp [hm]
    simp [Grid.walk, h1, h2, hc]

/-- C1 witness: a concrete merge step on `blockGrid`. -/
theorem C1_merge_rule_witness :
    blockGrid.walk (Tile.new 2) (Position.new 0 0) Direction.Right 1 =
      (Position.new 0 1,
       { number := 4, state := TileState.Merged, previous_position := none }) := by
  rw [(C1_merge_rule blockGrid (Tile.new 2) (Position.new 0 0) Direction.Right 0
    (Tile.new 2) (by decide) (by decide)).1]
  decide

/-- C4: for every direction, the traversal order of `build_traversal`
is rows 0,1,2,3 (reversed exactly for Down) outer, columns 0,1,2,3
(reversed exactly for Right) inner. -/
theorem C4_build_traversal_order (d : Direction) :
    d.build_traversal =
      (spec_row_order d).flatMap
        (fun i => (spec_col_order d).map (fun j => Position.new i j)) := by
  cases d <;> rfl

/-- C6: a Left or Right walk never changes the row of the moving tile
and an Up or Down walk never changes its column; the wrapped position
produced at an edge (`0 - 1` as `usize`) is rejected by the bounds
check; concretely, `[0,2,0,0]` in each of rows 1 and 2 slid Left gives
`[2,0,0,0]` in each row with no cross-row interaction. -/
theorem C6_moves_stay_in_line :
    (∀ (g : Grid) (t : Tile) (p : Position) (fuel : Nat),
      p.is_out_of_bounds = false →
        ((g.walk t p Direction.Left fuel).1).i = p.i ∧
        ((g.walk t p Direction.Right fuel).1).i = p.i ∧
        ((g.walk t p Direction.Up fuel).1).j = p.j ∧
        ((g.walk t p Direction.Down fuel).1).j = p.j) ∧
    ((Position.new 0 0).add_direction Direction.Left).is_out_of_bounds = true ∧
    ((Position.new 0 0).add_direction Direction.Up).is_out_of_bounds = true ∧
    gridEq (twoRowGrid.move_in Direction.Left 0 0) twoRowGridExpected = true := by
  refine ⟨?_, by decide, by decide, by decide⟩
  intro g t p fuel hp
  have hb := (Position.is_out_of_bounds_eq_false_iff p).mp hp
  exact ⟨Grid.walk_fixed_i g t Direction.Left rfl fuel p hb.1,
         Grid.walk_fixed_i g t Direction.Right rfl fuel p hb.1,
         Grid.walk_fixed_j g t Direction.Up rfl fuel p hb.2,
         Grid.walk_fixed_j g t Direction.Down rfl fuel p hb.2⟩

/-- C6 witness: the walk of the tile at (1,1) Left stays in row 1. -/
theorem C6_moves_stay_in_line_witness :
    ((twoRowGrid.walk (Tile.new 2) (Position.new 1 1) Direction.Left 16).1).i =
      (Position.new 1 1).i :=
  (C6_moves_stay_in_line.1 twoRowGrid (Tile.new 2) (Position.new 1 1) 16 (by decide)).1

/-- C7: with spawning enabled, `add_random_tile` is a no-op when no
cell is empty; otherwise it writes a tile with state `New`, no previous
position and number 4 exactly when the draw exceeds 0.9 (else 2) into
the empty cell selected by the random choice (modelled as an oracle
index into the list of empty cells, over which the library's `choose`
is uniform), never overwriting an occupied cell. -/
theorem C7_spawn_rule (g : Grid) (choice : Nat) (draw : Rat)
    (he : g.enable_new_tiles = true) :
    (emptyIndicesAux g.cells 0 = [] → g.add_random_tile choice draw = g) ∧
    (emptyIndicesAux g.cells 0 ≠ [] →
      ((emptyIndicesAux g.cells 0).getD
          (choice % (emptyIndicesAux g.cells 0).length) 0) < g.cells.length ∧
      g.cells.getD
          ((emptyIndicesAux g.cells 0).getD
            (choice % (emptyIndicesAux g.cells 0).length) 0) none = none ∧
      g.add_random_tile choice draw =
        { g with
            cells := g.cells.set
              ((emptyIndicesAux g.cells 0).getD
                (choice % (emptyIndicesAux g.cells 0).length) 0)
              (some { number := if (9 : Rat) / 10 < draw then 4 else 2,
                      state := TileState.New, previous_position := none }) }) := by
  constructor
  · intro h
    exact Grid.add_random_tile_no_empty g choice draw he h
  · intro hne
    have hlen0 : 0 < (emptyIndicesAux g.cells 0).length := List.length_pos.mpr hne
    have hmem : (emptyIndicesAux g.cells 0).getD
        (choice % (emptyIndicesAux g.cells 0).length) 0 ∈ emptyIndicesAux g.cells 0 :=
      list_getD_mem _ _ 0 (Nat.mod_lt choice hlen0)
    have hprops := emptyIndicesAux_mem g.cells 0 _ hmem
    rw [Nat.sub_zero] at hprops
    refine ⟨hprops.2.1, hprops.2.2, ?_⟩
    rw [Grid.add_random_tile_spawns g choice draw he hne]
    rfl

/-- C7 witness: spawning on `pairGrid` writes a `2` with state `New`
into the first empty cell. -/
theorem C7_spawn_rule_witness :
    pairGrid.add_random_tile 0 0 =
      { pairGrid with
          cells := pairGrid.cells.set 2
            (some { number := 2, state := TileState.New, previous_position := none }) } := by
  rw [((C7_spawn_rule pairGrid 0 0 rfl).2 (by decide)).2.2]
  rw [if_neg (by norm_num)]
  decide

/-- C9: every cell index used by the unchecked writes of
`traverse_from` during a move is in range: each start position taken
from the traversal has index below 16 and the walk's destination always
has index below 16 as well. -/
theorem C9_writes_in_bounds (g : Grid) (d : Direction) (p : Position)
    (hp : p ∈ d.build_traversal) :
    p.index < 16 ∧ ∀ (t : Tile) (fuel : Nat), ((g.walk t p d fuel).1).index < 16 := by
  have hoob := traversal_in_bounds d p hp
  refine ⟨Position.index_lt_of_in_bounds p hoob, ?_⟩
  intro t fuel
  rcases Grid.walk_cases g t d fuel p with hw | ⟨hoob2, _⟩
  · rw [hw]
    exact Position.index_lt_of_in_bounds p hoob
  · exact Position.index_lt_of_in_bounds _ hoob2

/-- C9 witness: concrete in-range indices for a walk on `pairGrid`. -/
theorem C9_writes_in_bounds_witness :
    (Position.new 0 0).index < 16 ∧
      ((pairGrid.walk (Tile.new 2) (Position.new 0 0) Direction.Right 16).1).index < 16 := by
  have h := C9_writes_in_bounds pairGrid Direction.Right (Position.new 0 0) (by decide)
  exact ⟨h.1, h.2 (Tile.new 2) 16⟩

/-- C10: tile equality compares only the `number` field, and grid
equality compares only the cells under that tile equality, so two
grids agree exactly when they have the same occupancy and numbers,
regardless of any tile's state or previous position. -/
theorem C10_equality_ignores_metadata :
    (∀ a b : Tile, tileEq a b = true ↔ a.number = b.number) ∧
    (∀ g1 g2 : Grid, gridEq g1 g2 = true ↔
      g1.cells.map cellNumberView = g2.cells.map cellNumberView) := by
  constructor
  · intro a b
    simp [tileEq]
  · intro g1 g2
    exact cellsEqList_iff_view g1.cells g2.cells

/-- C3: for every grid and direction, the sum of all tile numbers after
`move_in` equals the sum before plus the value of the spawned tile if
one was spawned (zero otherwise); each merge conserves the sum. -/
theorem C3_sum_invariant (g : Grid) (d : Direction) (choice : Nat) (draw : Rat)
    (hlen : g.cells.length = 16) :
    sumNumbers ((g.move_in d choice draw).cells) =
      sumNumbers g.cells +
        (if (g.slide_phase d).2 = true ∧ g.enable_new_tiles = true
         then (if (9 : Rat) / 10 < draw then 4 else 2)
         else 0) := by
  by_cases hm : (g.slide_phase d).2 = true
  · rw [Grid.move_in_eq_spawn g d choice draw hm]
    by_cases he : g.enable_new_tiles = true
    · have hslen : ((g.slide_phase d).1).cells.length = 16 := by
        rw [Grid.slide_phase_length]
        exact hlen
      have hse : ((g.slide_phase d).1).enable_new_tiles = true := by
        rw [Grid.slide_phase_enable]
        exact he
      have hocc := Grid.slide_phase_count g d hlen hm
      have hnonempty : emptyIndicesAux ((g.slide_phase d).1).cells 0 ≠ [] := by
        intro hnil
        have hl := emptyIndicesAux_length ((g.slide_phase d).1).cells 0
        rw [hnil] at hl
        simp only [List.length_nil] at hl
        omega
      have hlen0 : 0 < (emptyIndicesAux ((g.slide_phase d).1).cells 0).length :=
        List.length_pos.mpr hnonempty
      have hmem := list_getD_mem (emptyIndicesAux ((g.slide_phase d).1).cells 0)
        (choice % (emptyIndicesAux ((g.slide_phase d).1).cells 0).length) 0
        (Nat.mod_lt choice hlen0)
      have hprops := emptyIndicesAux_mem ((g.slide_phase d).1).cells 0 _ hmem
      rw [Nat.sub_zero] at hprops
      rw [Grid.add_random_tile_spawns _ choice draw hse hnonempty]
      have s := sumNumbers_set ((g.slide_phase d).1).cells
        ((emptyIndicesAux ((g.slide_phase d).1).cells 0).getD
          (choice % (emptyIndicesAux ((g.slide_phase d).1).cells 0).length) 0)
        (some (Tile.new (if (9 : Rat) / 10 < draw then 4 else 2))) hprops.2.1
      rw [hprops.2.2] at s
      rw [show cellNumber (none : Cell) = 0 from rfl,
        show cellNumber (some (Tile.new (if (9 : Rat) / 10 < draw then 4 else 2))) =
          (if (9 : Rat) / 10 < draw then 4 else 2) from rfl] at s
      have hsum := Grid.slide_phase_sum g d hlen
      show sumNumbers (((g.slide_phase d).1).cells.set
          ((emptyIndicesAux ((g.slide_phase d).1).cells 0).getD
            (choice % (emptyIndicesAux ((g.slide_phase d).1).cells 0).length) 0)
          (some (Tile.new (if (9 : Rat) / 10 < draw then 4 else 2)))) = _
      rw [if_pos (show (g.slide_phase d).2 = true ∧ g.enable_new_tiles = true from ⟨hm, he⟩)]
      omega
    · have he2 : g.enable_new_tiles = false := by
        revert he
        cases g.enable_new_tiles <;> simp
      have hse : ((g.slide_phase d).1).enable_new_tiles = false := by
        rw [Grid.slide_phase_enable]
        exact he2
      rw [Grid.add_random_tile_disabled _ choice draw hse]
      rw [if_neg (fun h => he h.2), add_zero]
      exact Grid.slide_phase_sum g d hlen
  · have hm2 : (g.slide_phase d).2 = false := by
      revert hm
      cases (g.slide_phase d).2 <;> simp
    rw [Grid.move_in_eq_stay g d choice draw hm2]
    rw [if_neg (fun h => hm h.1), add_zero]
    exact Grid.slide_phase_sum g d hlen

/-- C3 witness: a Right move on `pairGrid` (which merges the two 2s and
spawns a 2) leaves the total increased by exactly the spawned 2. -/
theorem C3_sum_invariant_witness :
    sumNumbers ((pairGrid.move_in Direction.Right 0 0).cells) =
      sumNumbers pairGrid.cells + 2 := by
  rw [C3_sum_invariant pairGrid Direction.Right 0 0 (by decide)]
  rw [if_pos (show (pairGrid.slide_phase Direction.Right).2 = true ∧
    pairGrid.enable_new_tiles = true from ⟨by decide, rfl⟩)]
  rw [if_neg (show ¬ ((9 : Rat) / 10 < 0) by norm_num)]

/-- C2: with spawning enabled, a `move_in` call changes the board (in
the code's own grid equality, which compares occupancy and numbers) if
and only if the `moved` flag of the slide phase is set; when it is set
there is always an empty cell left and exactly one fresh tile is
written into one of them, and when it is not set nothing is spawned and
the call leaves the board unchanged up to the metadata reset. -/
theorem C2_spawn_iff_changed (g : Grid) (d : Direction) (choice : Nat) (draw : Rat)
    (he : g.enable_new_tiles = true) (hlen : g.cells.length = 16) :
    ((g.slide_phase d).2 = true ↔ gridEq (g.move_in d choice draw) g = false) ∧
    ((g.slide_phase d).2 = true →
      ∃ i : Nat, i < 16 ∧ ((g.slide_phase d).1).cells.getD i none = none ∧
        g.move_in d choice draw =
          { (g.slide_phase d).1 with
              cells := ((g.slide_phase d).1).cells.set i
                (some (Tile.new (if (9 : Rat) / 10 < draw then 4 else 2))) }) ∧
    ((g.slide_phase d).2 = false → g.move_in d choice draw = (g.slide_phase d).1) := by
  have hslen : ((g.slide_phase d).1).cells.length = 16 := by
    rw [Grid.slide_phase_length]
    exact hlen
  have hse : ((g.slide_phase d).1).enable_new_tiles = true := by
    rw [Grid.slide_phase_enable]
    exact he
  have spawnCase : (g.slide_phase d).2 = true →
      ∃ i : Nat, i < 16 ∧ ((g.slide_phase d).1).cells.getD i none = none ∧
        g.move_in d choice draw =
          { (g.slide_phase d).1 with
              cells := ((g.slide_phase d).1).cells.set i
                (some (Tile.new (if (9 : Rat) / 10 < draw then 4 else 2))) } := by
    intro hm
    have hocc := Grid.slide_phase_count g d hlen hm
    have hnonempty : emptyIndicesAux ((g.slide_phase d).1).cells 0 ≠ [] := by
      intro hnil
      have hl := emptyIndicesAux_length ((g.slide_phase d).1).cells 0
      rw [hnil] at hl
      simp only [List.length_nil] at hl
      omega
    have hlen0 : 0 < (emptyIndicesAux ((g.slide_phase d).1).cells 0).length :=
      List.length_pos.mpr hnonempty
    have hmem := list_getD_mem (emptyIndicesAux ((g.slide_phase d).1).cells 0)
      (choice % (emptyIndicesAux ((g.slide_phase d).1).cells 0).length) 0
      (Nat.mod_lt choice hlen0)
    have hprops := emptyIndicesAux_mem ((g.slide_phase d).1).cells 0 _ hmem
    rw [Nat.sub_zero] at hprops
    refine ⟨_, by rw [← hslen]; exact hprops.2.1, hprops.2.2, ?_⟩
    rw [Grid.move_in_eq_spawn g d choice draw hm]
    rw [Grid.add_random_tile_spawns _ choice draw hse hnonempty]
  have stayCase : (g.slide_phase d).2 = false →
      g.move_in d choice draw = (g.slide_phase d).1 :=
    fun hm => Grid.move_in_eq_stay g d choice draw hm
  refine ⟨⟨?_, ?_⟩, spawnCase, stayCase⟩
  · intro hm
    obtain ⟨i, hi, hnone, hout⟩ := spawnCase hm
    by_contra hne
    have hEq : gridEq (g.move_in d choice draw) g = true := by
      revert hne
      cases gridEq (g.move_in d choice draw) g <;> simp
    have hsumEq : sumNumbers (g.move_in d choice draw).cells = sumNumbers g.cells :=
      cellsEqList_sum hEq
    rw [hout] at hsumEq
    have hsumEq2 : sumNumbers (((g.slide_phase d).1).cells.set i
        (some (Tile.new (if (9 : Rat) / 10 < draw then 4 else 2)))) =
        sumNumbers g.cells := hsumEq
    have s := sumNumbers_set ((g.slide_phase d).1).cells i
      (some (Tile.new (if (9 : Rat) / 10 < draw then 4 else 2))) (by rw [hslen]; exact hi)
    rw [hnone] at s
    rw [show cellNumber (none : Cell) = 0 from rfl,
      show cellNumber (some (Tile.new (if (9 : Rat) / 10 < draw then 4 else 2))) =
        (if (9 : Rat) / 10 < draw then 4 else 2) from rfl] at s
    have hsum := Grid.slide_phase_sum g d hlen
    have hz : (if (9 : Rat) / 10 < draw then (4 : Int) else 2) = 4 ∨
        (if (9 : Rat) / 10 < draw then (4 : Int) else 2) = 2 := by
      by_cases hd : (9 : Rat) / 10 < draw
      · exact Or.inl (if_pos hd)
      · exact Or.inr (if_neg hd)
    rcases hz with hz | hz <;> rw [hz] at s hsumEq2 <;> omega
  · intro hgeq
    by_contra hm
    have hm2 : (g.slide_phase d).2 = false := by
      revert hm
      cases (g.slide_phase d).2 <;> simp
    have hout := stayCase hm2
    have hprep := Grid.slide_phase_flag_false g d hm2
    have hgeq2 : gridEq (g.move_in d choice draw) g = true := by
      rw [hout, hprep]
      exact prepareCells_cellsEq g.cells 0
    rw [hgeq2] at hgeq
    simp at hgeq

/-- C2 witness: the Right move on `pairGrid` changes the board, so the
code spawns exactly one tile there. -/
theorem C2_spawn_iff_changed_witness :
    gridEq (pairGrid.move_in Direction.Right 0 0) pairGrid = false :=
  (C2_spawn_iff_changed pairGrid Direction.Right 0 0 rfl (by decide)).1.mp (by decide)

/-- C5 counterexample: on `[2,2,0,0]` (spawning disabled) a second
Right move is a true no-op (its `moved` flag is false, so nothing
spawns, and the board is unchanged in the code's grid equality), yet
the resulting grid is not byte-for-byte identical: `prepare_for_move`
still resets the merged tile's state to `Static` and rewrites its
`previousPosition`. -/
theorem C5_no_op_counterexample :
    ((pairGridNoSpawn.move_in Direction.Right 0 0).slide_phase Direction.Right).2 = false ∧
    gridEq ((pairGridNoSpawn.move_in Direction.Right 0 0).move_in Direction.Right 0 0)
      (pairGridNoSpawn.move_in Direction.Right 0 0) = true ∧
    ¬ ((pairGridNoSpawn.move_in Direction.Right 0 0).move_in Direction.Right 0 0 =
        pairGridNoSpawn.move_in Direction.Right 0 0) := by
  decide

/-- C5 amended: if the second `move_in` in the same direction is a true
no-op (its `moved` flag is false, hence nothing spawns), the resulting
grid equals `prepare_for_move` of the grid after the first call — same
occupancy and numbers (equal under the code's grid equality), but every
tile's state reset to `Static` and its `previousPosition` set to its
current cell, so not byte-for-byte identical in general. -/
theorem C5_no_op_second_move (g : Grid) (d : Direction) (c1 c2 : Nat) (r1 r2 : Rat)
    (h : ((g.move_in d c1 r1).slide_phase d).2 = false) :
    (g.move_in d c1 r1).move_in d c2 r2 = (g.move_in d c1 r1).prepare_for_move ∧
    gridEq ((g.move_in d c1 r1).move_in d c2 r2) (g.move_in d c1 r1) = true := by
  have h1 := Grid.move_in_eq_stay (g.move_in d c1 r1) d c2 r2 h
  have h2 := Grid.slide_phase_flag_false (g.move_in d c1 r1) d h
  constructor
  · rw [h1, h2]
  · rw [h1, h2]
    exact prepareCells_cellsEq (g.move_in d c1 r1).cells 0

/-- C5 amended witness: the concrete double Right move on
`pairGridNoSpawn`. -/
theorem C5_no_op_second_move_witness :
    (pairGridNoSpawn.move_in Direction.Right 0 0).move_in Direction.Right 0 0 =
      (pairGridNoSpawn.move_in Direction.Right 0 0).prepare_for_move :=
  (C5_no_op_second_move pairGridNoSpawn Direction.Right 0 0 0 0 (by decide)).1

/-- C8: the render projection `tiles` yields, for every cell, no entry
when the cell is empty, exactly the tile itself for an occupied
non-merged cell, and exactly two entries at the same position for a
merged cell — the merged tile and a ghost with half its number, state
`Static` and the same previous position; the whole projection never
exceeds 32 entries. -/
theorem C8_render_projection (g : Grid) (hlen : g.cells.length = 16) :
    (g.tiles).length ≤ 32 ∧
    ∀ i : Nat, i < 16 →
      (g.tiles).filter (fun e => decide (e.1 = Position.from_index i)) =
        (match g.cells.getD i none with
         | none => []
         | some t =>
             if t.state = TileState.Merged
             then [(Position.from_index i, t),
                   (Position.from_index i,
                    { number := Int.tdiv t.number 2, state := TileState.Static,
                      previous_position := t.previous_position })]
             else [(Position.from_index i, t)]) := by
  constructor
  · have h := tilesAux_length g.cells 0
    rw [hlen] at h
    show (tilesAux g.cells 0).length ≤ 32
    omega
  · intro i hi
    have h := tilesAux_filter g.cells 0 i (Nat.zero_le i) (by omega)
    rw [Nat.sub_zero] at h
    show (tilesAux g.cells 0).filter (fun e => decide (e.1 = Position.from_index i)) = _
    rw [h]
    cases hc : g.cells.getD i none with
    | none => rfl
    | some t => cases ht : t.state <;> simp [tileEntries, ht]

/-- C8 witness: the merged tile of `mergedGrid` yields exactly its two
entries, and the projection is within the 32-entry bound. -/
theorem C8_render_projection_witness :
    (mergedGrid.tiles).filter (fun e => decide (e.1 = Position.from_index 3)) =
      [(Position.from_index 3,
        { number := 4, state := TileState.Merged,
          previous_position := some (Position.new 0 0) }),
       (Position.from_index 3,
        { number := 2, state := TileState.Static,
          previous_position := some (Position.new 0 0) })] ∧
    (mergedGrid.tiles).length ≤ 32 := by
  have h := C8_render_projection mergedGrid (by decide)
  refine ⟨?_, h.1⟩
  rw [h.2 3 (by decide)]
  decide
